import Mathlib

/-!
Verification of the agent execution core of `@dcyfr/ai-agents`.

The development shallowly embeds the TypeScript sources:

* `src/agent/core/agent.ts` — the `Agent` execution loop (`run`,
  `executeStep`, `registerTool`, `defaultSystemPrompt`, `emitEvent`);
* `src/agent/memory/short-term.ts` — `ShortTermMemory` (bounded FIFO-on-write
  key/value window);
* `src/agent/memory/long-term.ts` — `LongTermMemory` (file-backed store with
  a dirty flag);
* `src/agent/tools/registry.ts` — `ToolRegistry.register`.

JavaScript `Map` objects are embedded as association lists in insertion
order: `Map.set` replaces the value in place when the key is present and
appends otherwise, `Map.get` returns the first (unique) binding,
`Map.delete` removes it.  Arbitrary JavaScript values (`unknown`) are
embedded as an opaque type parameter or as `String`; `Promise` layers are
erased (every awaited call is a pure function returning `Except` when the
source may throw).  Wall-clock metadata (`startTime`/`endTime`/`duration`)
is not modelled.
-/

/-- JavaScript `Map.prototype.get`: the binding of `k`, if any. -/
def mapGet {α : Type} (m : List (String × α)) (k : String) : Option α :=
  match m with
  | [] => none
  | (k2, v) :: rest => if k2 = k then some v else mapGet rest k

/-- JavaScript `Map.prototype.set`: replace in place when the key exists,
append otherwise (insertion order is preserved). -/
def mapSet {α : Type} (m : List (String × α)) (k : String) (v : α) :
    List (String × α) :=
  match m with
  | [] => [(k, v)]
  | (k2, v2) :: rest =>
    if k2 = k then (k, v) :: rest else (k2, v2) :: mapSet rest k v

/-- JavaScript `Map.prototype.delete` (keys are unique in a real `Map`, so
removing the first binding is exact). -/
def mapDelete {α : Type} (m : List (String × α)) (k : String) :
    List (String × α) :=
  match m with
  | [] => []
  | (k2, v2) :: rest =>
    if k2 = k then rest else (k2, v2) :: mapDelete rest k

/-- JavaScript `Map.prototype.has`. -/
def mapHas {α : Type} (m : List (String × α)) (k : String) : Bool :=
  (mapGet m k).isSome

/-- Keys of the embedded map, in insertion order. -/
def mapKeys {α : Type} (m : List (String × α)) : List String :=
  m.map Prod.fst

theorem mapGet_eq_none_of_not_mem {α : Type} (m : List (String × α))
    (k : String) (h : k ∉ mapKeys m) : mapGet m k = none := by
  induction m with
  | nil => rfl
  | cons p rest ih =>
    simp [mapKeys] at h
    simp [mapGet, Ne.symm h.1, ih (by simp [mapKeys, h.2])]

theorem mapGet_of_mem_nodup {α : Type} (m : List (String × α))
    (k : String) (v : α) (hnd : (mapKeys m).Nodup) (hmem : (k, v) ∈ m) :
    mapGet m k = some v := by
  induction m with
  | nil => simp at hmem
  | cons p rest ih =>
    simp only [mapKeys, List.map_cons, List.nodup_cons] at hnd
    rcases List.mem_cons.mp hmem with h | h
    · simp [mapGet, h.symm]
    · have hk : p.1 ≠ k := by
        intro he
        exact hnd.1 (by simpa [he] using List.mem_map_of_mem Prod.fst h)
      simp [mapGet, hk, ih hnd.2 h]

theorem mapSet_eq_append_of_not_mem {α : Type} (m : List (String × α))
    (k : String) (v : α) (h : k ∉ mapKeys m) :
    mapSet m k v = m ++ [(k, v)] := by
  induction m with
  | nil => rfl
  | cons p rest ih =>
    simp [mapKeys] at h
    simp [mapSet, Ne.symm h.1, ih (by simp [mapKeys, h.2])]

theorem mapDelete_cons_head {α : Type} (k : String) (v : α)
    (rest : List (String × α)) : mapDelete ((k, v) :: rest) k = rest := by
  simp [mapDelete]

/-! ## Agent data model (src/agent/core/agent.ts, src/types/index.ts) -/

/-- Message role (`AgentMessage.role` in `src/types/index.ts`). -/
inductive Role where
  | system
  | user
  | assistant
  | tool
deriving DecidableEq

/-- A conversation message.  `content` of a tool message is the serialized
observation (`JSON.stringify` is embedded as the identity on our
string-valued observations). -/
structure AgentMessage where
  role : Role
  content : String
  name : Option String := none
deriving DecidableEq

/-- The action part of a decision: which tool to call and with what input. -/
structure ToolAction where
  tool : String
  input : String
deriving DecidableEq

/-- What the decision provider returns: a thought and an optional action
(`makeDecision` in agent.ts returns `{ thought, action? }`). -/
structure Decision where
  thought : String
  action : Option ToolAction
deriving DecidableEq

/-- One registered tool.  `inputSchema` embeds `tool.inputSchema.parse`
(returns the validated input or throws) and `execute` embeds the tool body
(may throw / reject); thrown errors are carried as `Except.error` with the
error message. -/
structure Tool where
  name : String
  description : String
  inputSchema : String → Except String String
  execute : String → Except String String

/-- Record of one loop iteration (`AgentStep`). -/
structure AgentStep where
  iteration : Nat
  thought : String
  action : Option ToolAction := none
  observation : Option String := none
  error : Option String := none
deriving DecidableEq

/-- Mutable loop state (`AgentState`). -/
structure AgentState where
  iteration : Nat
  messages : List AgentMessage
  steps : List AgentStep
  isFinished : Bool
  finalOutput : Option String := none
deriving DecidableEq

/-- Resolved configuration (`Required<AgentConfig>`).  The advisory
floating-point `temperature` field is not modelled. -/
structure AgentConfig where
  name : String
  description : String
  maxIterations : Nat
  verbose : Bool
  systemPrompt : String
deriving DecidableEq

/-- The value returned by `Agent.run` (`AgentResult`); the wall-clock
`metadata` record is not modelled.  `error` is the message of a run-level
exception caught at the top of `run`. -/
structure AgentResult where
  output : String
  steps : List AgentStep
  iterations : Nat
  success : Bool
  error : Option String := none
deriving DecidableEq

/-- Lifecycle event (tagged union emitted via `emitEvent`). -/
inductive AgentEvent where
  | start (config : AgentConfig) (input : String)
  | step (s : AgentStep)
  | tool_call (tool : String) (input : String)
  | tool_result (tool : String) (output : String)
  | error (msg : String) (stepNum : Nat)
  | finish (r : AgentResult)
deriving DecidableEq

/-- An agent instance: its resolved configuration, its tool map
(`this.tools : Map<string, Tool>`), and its decision provider.  The source
hard-codes the provider to the private placeholder `makeDecision`
("In a real implementation, this would call an LLM"); the spec treats the
provider as an injected collaborator, so the embedding carries it as a
field whose placeholder instance is `makeDecision` below. -/
structure Agent where
  config : AgentConfig
  tools : List (String × Tool)
  decide : AgentState → Except String Decision

/-- The placeholder decision logic of agent.ts lines 236-252: always
finishes immediately with a fixed thought and no action. -/
def makeDecision : AgentState → Except String Decision :=
  fun _ =>
    .ok { thought := "Analyzing the request and determining next steps..."
          action := none }

/-- `registerTool` (agent.ts lines 85-90): plain `Map.set`, silently
replacing any tool already registered under the same name.  The `verbose`
console log has no modelled effect. -/
def Agent.registerTool (a : Agent) (t : Tool) : Agent :=
  { a with tools := mapSet a.tools t.name t }

/-- Initial `AgentState` built in the constructor and in `reset()`:
iteration 0, a single system message, no steps, not finished. -/
def initialState (cfg : AgentConfig) : AgentState :=
  { iteration := 0
    messages := [{ role := .system, content := cfg.systemPrompt }]
    steps := []
    isFinished := false
    finalOutput := none }

/-- The state at the top of the `run` loop: the initial state with the
user input appended to the message history (agent.ts lines 104-109). -/
def startState (a : Agent) (input : String) : AgentState :=
  let s0 := initialState a.config
  { s0 with messages := s0.messages ++ [{ role := .user, content := input }] }

/-- The state as seen by `executeStep` after `this.state.iteration++`. -/
def bumpIter (s : AgentState) : AgentState :=
  { s with iteration := s.iteration + 1 }

/-- Result of one `executeStep` call: the produced step record, the updated
state (a tool-role message is appended on a successful tool call), and the
events emitted during the step. -/
structure StepOutcome where
  step : AgentStep
  state : AgentState
  events : List AgentEvent

/-- `executeStep` (agent.ts lines 174-230).  The whole body sits in a
`try`: a failure of the decision provider, a missing tool, a schema
validation failure, or a failing execute all land in the `catch`, which
records the error on the step and emits an `error` event carrying the
current iteration number.  Note that `step.thought` and `step.action` are
assigned from the decision before the tool call, so a step that fails
during the tool call still carries its action. -/
def executeStep (a : Agent) (st : AgentState) : StepOutcome :=
  let step0 : AgentStep := { iteration := st.iteration, thought := "" }
  match a.decide st with
  | .error e =>
    { step := { step0 with error := some e }
      state := st
      events := [.error e st.iteration] }
  | .ok d =>
    let step1 := { step0 with thought := d.thought, action := d.action }
    match d.action with
    | none => { step := step1, state := st, events := [] }
    | some act =>
      let callEv := AgentEvent.tool_call act.tool act.input
      match mapGet a.tools act.tool with
      | none =>
        let msg := "Tool not found: " ++ act.tool
        { step := { step1 with error := some msg }
          state := st
          events := [callEv, .error msg st.iteration] }
      | some t =>
        match t.inputSchema act.input with
        | .error e =>
          { step := { step1 with error := some e }
            state := st
            events := [callEv, .error e st.iteration] }
        | .ok vin =>
          match t.execute vin with
          | .error e =>
            { step := { step1 with error := some e }
              state := st
              events := [callEv, .error e st.iteration] }
          | .ok res =>
            { step := { step1 with observation := some res }
              state := { st with messages := st.messages ++
                [{ role := .tool, content := res, name := some act.tool }] }
              events := [callEv, .tool_result act.tool res] }

/-- One pass of the `run` loop body (agent.ts lines 113-127): increment the
iteration counter, execute a step, push it onto `steps`, emit the `step`
event, and set `isFinished`/`finalOutput` when the step has no action. -/
def loopBody (a : Agent) (s : AgentState) : AgentState × List AgentEvent :=
  let out := executeStep a (bumpIter s)
  let s2 := { out.state with iteration := s.iteration + 1
                             steps := out.state.steps ++ [out.step] }
  let s3 := if out.step.action.isNone
    then { s2 with isFinished := true, finalOutput := some out.step.thought }
    else s2
  (s3, out.events ++ [.step out.step])

/-- The `while (iteration < maxIterations && !isFinished)` loop, embedded
with fuel `maxIterations - iteration`: every pass increments `iteration` by
exactly one, so the guard `iteration < maxIterations` is exactly
`fuel > 0`. -/
def runLoop (a : Agent) : Nat → AgentState → AgentState × List AgentEvent
  | 0, s => (s, [])
  | fuel + 1, s =>
    if s.isFinished then (s, [])
    else
      let p := loopBody a s
      let q := runLoop a fuel p.1
      (q.1, p.2 ++ q.2)

/-- The output field of the result: `this.state.finalOutput || 'No output
generated'` — JavaScript treats the empty string as falsy. -/
def outputOf (s : AgentState) : String :=
  match s.finalOutput with
  | some out => if out = "" then "No output generated" else out
  | none => "No output generated"

/-- What a full `run` yields: the returned `AgentResult`, the final state
(`this.state`, observable via `getState`), and the emitted event trace. -/
structure RunOutcome where
  result : AgentResult
  finalState : AgentState
  events : List AgentEvent

/-- `Agent.run` (agent.ts lines 95-169): emit `start`, append the user
message, run the loop, and build the result.  In the embedding no
expression inside the `try` block can throw — the only throw sites there
are the awaited event listeners, which are modelled as non-throwing (the
spec leaves listener-failure policy open) — while decision-provider and
tool failures are consumed inside `executeStep`; hence the run-level
`catch` (lines 146-168) is unreachable and `result.error` is always
`none`. -/
def Agent.run (a : Agent) (input : String) : RunOutcome :=
  let s1 := startState a input
  let p := runLoop a a.config.maxIterations s1
  let result : AgentResult :=
    { output := outputOf p.1
      steps := p.1.steps
      iterations := p.1.iteration
      success := p.1.isFinished && !(p.1.steps.any fun st => st.error.isSome)
      error := none }
  { result := result
    finalState := p.1
    events := [.start a.config input] ++ p.2 ++ [.finish result] }

/-- `emitEvent` (agent.ts lines 288-292): `for (const listener of
this.listeners) await listener(event)` — a strictly sequential left fold
over the listener list in registration order, each listener awaited before
the next is invoked.  Listener side effects are modelled by state passing
over an arbitrary state type. -/
def emitEvent {σ : Type} (listeners : List (AgentEvent → σ → σ))
    (e : AgentEvent) (s : σ) : σ :=
  listeners.foldl (fun acc l => l e acc) s

/-! ## Agent construction and the derived system prompt -/

/-- `defaultSystemPrompt` (agent.ts lines 257-283): renders the agent name,
description, and one "- name: description" line per registered tool, over
the fixed instruction template; JavaScript `toolList || '(No tools
available)'` treats the empty string as falsy. -/
def defaultSystemPrompt (name description : String)
    (tools : List (String × Tool)) : String :=
  let toolList := String.intercalate "\n"
    ((tools.map Prod.snd).map fun t => "- " ++ t.name ++ ": " ++ t.description)
  "You are " ++ name ++ ", an autonomous AI agent.\n\nDescription: " ++
    description ++ "\n\nAvailable Tools:\n" ++
    (if toolList = "" then "(No tools available)" else toolList) ++
    "\n\nInstructions:\n1. Think step-by-step about the user\x27s request\n2. Use tools when needed to gather information or take actions\n3. Provide clear, helpful responses\n4. If you cannot complete the task, explain why\n\nWhen using a tool, respond in this format:\nThought: [Your reasoning]\nAction: [tool name]\nAction Input: [JSON input for the tool]\n\nWhen you have a final answer, respond:\nThought: [Your reasoning]\nFinal Answer: [Your response to the user]"

/-- Constructor options (`AgentOptions`), with the optional fields the
constructor defaults (`maxIterations ?? 10`, `verbose ?? false`). -/
structure AgentOptions where
  name : String
  description : String
  maxIterations : Option Nat := none
  verbose : Option Bool := none
  systemPrompt : Option String := none
  tools : List Tool := []

/-- Register a list of tools in order via `Map.set` (the constructor loop
`for (const tool of options.tools) this.registerTool(tool)`). -/
def registerToolsMap (m : List (String × Tool)) (ts : List Tool) :
    List (String × Tool) :=
  ts.foldl (fun acc t => mapSet acc t.name t) m

/-- The `Agent` constructor of `src/agent/core/agent.ts` (lines 39-57),
keeping the source order of effects: the config is built with
`systemPrompt: ''`, then line 50 computes `options.systemPrompt ??
this.defaultSystemPrompt()` while `this.tools` is still the empty map, and
only afterwards (lines 53-57) are the constructor-supplied tools
registered. -/
def mkAgent (o : AgentOptions) : Agent :=
  let tools0 : List (String × Tool) := []
  let prompt :=
    match o.systemPrompt with
    | some p => p
    | none => defaultSystemPrompt o.name o.description tools0
  { config :=
      { name := o.name
        description := o.description
        maxIterations := o.maxIterations.getD 10
        verbose := o.verbose.getD false
        systemPrompt := prompt }
    tools := registerToolsMap tools0 o.tools
    decide := makeDecision }

/-- The Phase 0 variant of the constructor (src/unnamed/part_001 lines
47-96), which registers the constructor-supplied tools first — its comment
reads "Register tools BEFORE generating default system prompt so that
tools are available in the prompt" — and derives the prompt from the
populated tool map. -/
def mkAgentPhase0 (o : AgentOptions) : Agent :=
  let tools := registerToolsMap [] o.tools
  let prompt :=
    match o.systemPrompt with
    | some p => p
    | none => defaultSystemPrompt o.name o.description tools
  { config :=
      { name := o.name
        description := o.description
        maxIterations := o.maxIterations.getD 10
        verbose := o.verbose.getD false
        systemPrompt := prompt }
    tools := tools
    decide := makeDecision }

/-- Whether the character list `pat` occurs contiguously in `s`. -/
def listOccurs (pat : List Char) : List Char → Bool
  | [] => pat.isEmpty
  | c :: rest => pat.isPrefixOf (c :: rest) || listOccurs pat rest

/-- Whether the string `pat` occurs as a substring of `s`. -/
def strOccurs (pat s : String) : Bool :=
  listOccurs pat.data s.data

/-! ## Short-term memory (src/agent/memory/short-term.ts) -/

/-- The ephemeral bounded store: a backing map, its capacity, and the
insertion-order list used for eviction. -/
structure ShortTermMemory (α : Type) where
  store : List (String × α)
  maxSize : Nat
  insertionOrder : List String

/-- A fresh `ShortTermMemory` of the given capacity (the constructor;
the source default capacity is 100). -/
def ShortTermMemory.empty (α : Type) (maxSize : Nat) : ShortTermMemory α :=
  { store := [], maxSize := maxSize, insertionOrder := [] }

/-- The eviction loop of `save` (short-term.ts lines 31-36): `while
(insertionOrder.length > maxSize) { const oldestKey =
insertionOrder.shift(); if (oldestKey) { store.delete(oldestKey); } }`.
Each pass removes the head of the order list, so the recursion is
structural on it; the guard is re-checked before each pass exactly as in
the source.  `if (oldestKey)` is a JavaScript truthiness test: the shifted
key is always defined here (the loop guard makes the list non-empty), but
the empty string is falsy, so the `store.delete` is SKIPPED when the
evicted key is `""` — that key leaves the insertion order yet its value
stays in the store. -/
def evictWhile {α : Type} (maxSize : Nat) :
    List (String × α) → List String → List (String × α) × List String
  | store, [] => (store, [])
  | store, k0 :: rest =>
    if rest.length + 1 > maxSize then
      evictWhile maxSize (if k0 = "" then store else mapDelete store k0) rest
    else (store, k0 :: rest)

/-- `ShortTermMemory.save` (short-term.ts lines 20-37): if the key already
exists its entry is filtered out of the insertion order; the value is
stored and the key appended as most recent; then the eviction loop trims
the store to capacity. -/
def ShortTermMemory.save {α : Type} (m : ShortTermMemory α) (k : String)
    (v : α) : ShortTermMemory α :=
  let order1 := if mapHas m.store k
    then m.insertionOrder.filter (fun x => x != k)
    else m.insertionOrder
  let store1 := mapSet m.store k v
  let order2 := order1 ++ [k]
  let out := evictWhile m.maxSize store1 order2
  { m with store := out.1, insertionOrder := out.2 }

/-- `ShortTermMemory.get` (short-term.ts lines 39-41): a plain
`store.get`; it touches neither the store nor the insertion order. -/
def ShortTermMemory.get {α : Type} (m : ShortTermMemory α) (k : String) :
    Option α :=
  mapGet m.store k

/-- An observable operation on the ephemeral store, for stating that reads
do not disturb the eviction order. -/
inductive MemOp (α : Type) where
  | save (k : String) (v : α)
  | get (k : String)

/-- Whether an operation is a `save`. -/
def MemOp.isSave {α : Type} : MemOp α → Bool
  | .save _ _ => true
  | .get _ => false

/-- Apply one operation to the store state.  `get` only reads
`this.store` (short-term.ts lines 39-41), so it leaves the state
untouched. -/
def applyMemOp {α : Type} (m : ShortTermMemory α) : MemOp α → ShortTermMemory α
  | .save k v => m.save k v
  | .get _ => m

/-- Apply a sequence of operations in order. -/
def applyMemOps {α : Type} (m : ShortTermMemory α) (ops : List (MemOp α)) :
    ShortTermMemory α :=
  ops.foldl applyMemOp m

/-- Save a list of key/value pairs in order. -/
def saveAll {α : Type} (m : ShortTermMemory α) (ps : List (String × α)) :
    ShortTermMemory α :=
  ps.foldl (fun acc p => acc.save p.1 p.2) m

/-! ## Long-term memory (src/agent/memory/long-term.ts) -/

/-- The durable store's in-process half: the backing map and the dirty
flag.  The storage path and auto-save timer are not modelled (the timer
only re-invokes `persist`). -/
structure LongTermMemory (α : Type) where
  store : List (String × α)
  isDirty : Bool

/-- A fresh instance (the constructor initializes `isDirty = false` and an
empty map). -/
def LongTermMemory.empty (α : Type) : LongTermMemory α :=
  { store := [], isDirty := false }

/-- Contents of the backing file at the storage path: `none` when the file
is absent (`ENOENT`), `some (.error ())` when present but malformed (the
`JSON.parse` call throws), and `some (.ok fields)` when it parses to a
JSON object with the given fields in property order. -/
def FileState (α : Type) : Type :=
  Option (Except Unit (List (String × α)))

/-- JavaScript `Object.fromEntries` / `new Map(Object.entries ...)`: build
a keyed collection from a field list, later values for a key winning while
the key keeps its first position — i.e. a left fold of `Map.set`. -/
def entriesToMap {α : Type} (ps : List (String × α)) : List (String × α) :=
  ps.foldl (fun acc p => mapSet acc p.1 p.2) []

/-- `LongTermMemory.load` (long-term.ts lines 42-55): on a successful read
the store is rebuilt from the parsed object and the dirty flag cleared; the
`catch` branch — file absent or malformed — resets the store to an empty
map and returns without throwing, leaving `isDirty` untouched. -/
def LongTermMemory.load {α : Type} (m : LongTermMemory α)
    (file : FileState α) : LongTermMemory α :=
  match file with
  | some (.ok fields) => { m with store := entriesToMap fields, isDirty := false }
  | some (.error _) => { m with store := [] }
  | none => { m with store := [] }

/-- `LongTermMemory.persist` (long-term.ts lines 60-73): write
`Object.fromEntries(this.store)` to the file and clear the dirty flag.
The directory creation and write are modelled as succeeding, and
`JSON.parse ∘ JSON.stringify` as the identity on the object, so the file
afterwards parses to exactly the written field list. -/
def LongTermMemory.persist {α : Type} (m : LongTermMemory α) :
    LongTermMemory α × FileState α :=
  ({ m with isDirty := false }, some (.ok (entriesToMap m.store)))

/-- `LongTermMemory.save` (long-term.ts lines 75-78): `Map.set` plus
marking the store dirty; the backing file is untouched. -/
def LongTermMemory.save {α : Type} (m : LongTermMemory α) (k : String)
    (v : α) : LongTermMemory α :=
  { m with store := mapSet m.store k v, isDirty := true }

/-- `LongTermMemory.export` (long-term.ts lines 125-127):
`Object.fromEntries(this.store)`, a snapshot of the key/value set. -/
def LongTermMemory.export {α : Type} (m : LongTermMemory α) :
    List (String × α) :=
  entriesToMap m.store

/-- Save a list of key/value pairs in order into the durable store. -/
def saveAllLT {α : Type} (m : LongTermMemory α) (ps : List (String × α)) :
    LongTermMemory α :=
  ps.foldl (fun acc p => acc.save p.1 p.2) m

/-! ## Tool registry (src/agent/tools/registry.ts) -/

/-- The registry: the tool map and the category map
(`Map<string, Set<string>>`, a set embedded as a duplicate-free list). -/
structure ToolRegistry where
  tools : List (String × Tool)
  categories : List (String × List String)

/-- A fresh registry. -/
def ToolRegistry.empty : ToolRegistry :=
  { tools := [], categories := [] }

/-- `ToolRegistry.register` (registry.ts lines 17-30): throws `Tool
already registered: <name>` when the name is taken — unlike
`Agent.registerTool`, which silently overwrites — otherwise stores the
tool and, when a category is given, adds the name to that category's
set. -/
def ToolRegistry.register (r : ToolRegistry) (t : Tool)
    (category : Option String) : Except String ToolRegistry :=
  if mapHas r.tools t.name then
    .error ("Tool already registered: " ++ t.name)
  else
    .ok { tools := mapSet r.tools t.name t
          categories :=
            match category with
            | none => r.categories
            | some c =>
              let cur := (mapGet r.categories c).getD []
              mapSet r.categories c
                (if t.name ∈ cur then cur else cur ++ [t.name]) }

/-! ## Basic facts about one step and one loop pass -/

theorem executeStep_state_isFinished (a : Agent) (s : AgentState) :
    (executeStep a s).state.isFinished = s.isFinished := by
  unfold executeStep
  rcases hd : a.decide s with e | d
  · rfl
  · rcases hact : d.action with _ | act
    · simp [hact]
    · rcases hl : mapGet a.tools act.tool with _ | t
      · simp [hact, hl]
      · rcases hs : t.inputSchema act.input with e | vin
        · simp [hact, hl, hs]
        · rcases hx : t.execute vin with e | res
          · simp [hact, hl, hs, hx]
          · simp [hact, hl, hs, hx]

theorem executeStep_state_iteration (a : Agent) (s : AgentState) :
    (executeStep a s).state.iteration = s.iteration := by
  unfold executeStep
  rcases hd : a.decide s with e | d
  · rfl
  · rcases hact : d.action with _ | act
    · simp [hact]
    · rcases hl : mapGet a.tools act.tool with _ | t
      · simp [hact, hl]
      · rcases hs : t.inputSchema act.input with e | vin
        · simp [hact, hl, hs]
        · rcases hx : t.execute vin with e | res
          · simp [hact, hl, hs, hx]
          · simp [hact, hl, hs, hx]

theorem executeStep_state_steps (a : Agent) (s : AgentState) :
    (executeStep a s).state.steps = s.steps := by
  unfold executeStep
  rcases hd : a.decide s with e | d
  · rfl
  · rcases hact : d.action with _ | act
    · simp [hact]
    · rcases hl : mapGet a.tools act.tool with _ | t
      · simp [hact, hl]
      · rcases hs : t.inputSchema act.input with e | vin
        · simp [hact, hl, hs]
        · rcases hx : t.execute vin with e | res
          · simp [hact, hl, hs, hx]
          · simp [hact, hl, hs, hx]

theorem executeStep_step_action (a : Agent) (s : AgentState) (d : Decision)
    (hd : a.decide s = .ok d) : (executeStep a s).step.action = d.action := by
  unfold executeStep
  rw [hd]
  rcases hact : d.action with _ | act
  · simp [hact]
  · rcases hl : mapGet a.tools act.tool with _ | t
    · simp [hact, hl]
    · rcases hs : t.inputSchema act.input with e | vin
      · simp [hact, hl, hs]
      · rcases hx : t.execute vin with e | res
        · simp [hact, hl, hs, hx]
        · simp [hact, hl, hs, hx]

theorem loopBody_iteration (a : Agent) (s : AgentState) :
    (loopBody a s).1.iteration = s.iteration + 1 := by
  unfold loopBody
  by_cases h : (executeStep a (bumpIter s)).step.action.isNone <;> simp [h]

theorem loopBody_isFinished_of_action (a : Agent) (s : AgentState)
    (act : ToolAction)
    (h : (executeStep a (bumpIter s)).step.action = some act) :
    (loopBody a s).1.isFinished = s.isFinished := by
  unfold loopBody
  simp only [h, Option.isNone_some, Bool.false_eq_true, if_false]
  simp [executeStep_state_isFinished, bumpIter]

theorem runLoop_succ_not_finished (a : Agent) (fuel : Nat) (s : AgentState)
    (hf : s.isFinished = false) :
    runLoop a (fuel + 1) s =
      ((runLoop a fuel (loopBody a s).1).1,
       (loopBody a s).2 ++ (runLoop a fuel (loopBody a s).1).2) := by
  simp [runLoop, hf]

theorem runLoop_of_finished (a : Agent) (fuel : Nat) (s : AgentState)
    (h : s.isFinished = true) : runLoop a fuel s = (s, []) := by
  cases fuel with
  | zero => rfl
  | succ n => simp [runLoop, h]

theorem runLoop_iteration_le (a : Agent) (fuel : Nat) (s : AgentState) :
    (runLoop a fuel s).1.iteration ≤ s.iteration + fuel := by
  induction fuel generalizing s with
  | zero => simp [runLoop]
  | succ n ih =>
    by_cases h : s.isFinished
    · simp [runLoop, h]
    · simp only [runLoop, h, if_neg]
      calc (runLoop a n (loopBody a s).1).1.iteration
          ≤ (loopBody a s).1.iteration + n := ih _
        _ = s.iteration + 1 + n := by rw [loopBody_iteration]
        _ = s.iteration + (n + 1) := by omega

theorem runLoop_iteration_of_not_finished (a : Agent) (fuel : Nat)
    (s : AgentState) (h : (runLoop a fuel s).1.isFinished = false) :
    (runLoop a fuel s).1.iteration = s.iteration + fuel := by
  induction fuel generalizing s with
  | zero => simp [runLoop]
  | succ n ih =>
    cases hf : s.isFinished with
    | true =>
      rw [runLoop_of_finished a _ s hf] at h
      rw [hf] at h
      exact absurd h (by simp)
    | false =>
      rw [runLoop_succ_not_finished a n s hf] at h ⊢
      rw [ih _ h, loopBody_iteration]
      omega

theorem runLoop_iteration_always_action (a : Agent)
    (hdec : ∀ st, ∃ d act, a.decide st = .ok d ∧ d.action = some act)
    (fuel : Nat) (s : AgentState) (hf : s.isFinished = false) :
    (runLoop a fuel s).1.iteration = s.iteration + fuel := by
  induction fuel generalizing s with
  | zero => simp [runLoop]
  | succ n ih =>
    obtain ⟨d, act, hd, hact⟩ := hdec (bumpIter s)
    have hstep : (executeStep a (bumpIter s)).step.action = some act := by
      rw [executeStep_step_action a _ d hd, hact]
    have hbody : (loopBody a s).1.isFinished = false := by
      rw [loopBody_isFinished_of_action a s act hstep, hf]
    rw [runLoop_succ_not_finished a n s hf]
    rw [ih _ hbody, loopBody_iteration]
    omega

/-! ## Concrete fixtures used by witnesses and counterexamples -/

/-- A configuration with an iteration ceiling of 2. -/
def cfgAlways : AgentConfig :=
  { name := "Looper", description := "always acts", maxIterations := 2
    verbose := false, systemPrompt := "" }

/-- An action naming a capability that is never registered. -/
def ghostAction : ToolAction := { tool := "ghost", input := "x" }

/-- An agent whose decision provider always requests the unregistered
capability, so no step ever finishes the run. -/
def agentAlways : Agent :=
  { config := cfgAlways
    tools := []
    decide := fun _ => .ok { thought := "keep going", action := some ghostAction } }

/-- An agent whose decision provider always throws. -/
def agentBoom : Agent :=
  { config := { name := "Boom", description := "failing provider", maxIterations := 3
                verbose := false, systemPrompt := "" }
    tools := []
    decide := fun _ => .error "Decision provider failed" }

/-- A tool that validates any input and echoes it. -/
def echoTool : Tool :=
  { name := "echo", description := "echoes the input"
    inputSchema := fun s => .ok s
    execute := fun s => .ok ("echo:" ++ s) }

/-- An agent that performs exactly one successful call to `echoTool`
within a ceiling of one iteration. -/
def agentEcho : Agent :=
  { config := { name := "Echo", description := "one tool call", maxIterations := 1
                verbose := false, systemPrompt := "" }
    tools := [("echo", echoTool)]
    decide := fun _ => .ok { thought := "call echo"
                             action := some { tool := "echo", input := "hi" } } }

/-! ## C1 — iteration bound -/

/-- C1: for any configuration with `maxIterations = k` (k positive), every
run returns `Result.iterations ≤ k`; and when no step ever sets
`isFinished` — every decision returns an action — `Result.iterations`
equals exactly `k`. -/
theorem agent_run_iterations_bounded (a : Agent) (input : String) (k : Nat)
    (hk : a.config.maxIterations = k) (_hpos : 0 < k) :
    (a.run input).result.iterations ≤ k ∧
    ((∀ st, ∃ d act, a.decide st = .ok d ∧ d.action = some act) →
      (a.run input).result.iterations = k) := by
  have h1 : (a.run input).result.iterations =
      (runLoop a a.config.maxIterations (startState a input)).1.iteration := rfl
  have h0 : (startState a input).iteration = 0 := rfl
  constructor
  · rw [h1, hk]
    have h := runLoop_iteration_le a k (startState a input)
    rw [h0] at h
    simpa using h
  · intro hdec
    rw [h1, hk]
    have h := runLoop_iteration_always_action a hdec k (startState a input) rfl
    rw [h0] at h
    simpa using h

/-- Witness for C1 at the agent whose decisions always carry an action and
whose ceiling is 2: both hypotheses hold and the run takes exactly 2
iterations. -/
theorem agent_run_iterations_bounded_witness :
    (0 < 2 ∧ (∀ st, ∃ d act, agentAlways.decide st = .ok d ∧ d.action = some act)) ∧
    ((agentAlways.run "go").result.iterations ≤ 2 ∧
      (agentAlways.run "go").result.iterations = 2) := by
  have hdec : ∀ st, ∃ d act, agentAlways.decide st = .ok d ∧ d.action = some act :=
    fun _ => ⟨_, ghostAction, rfl, rfl⟩
  have h := agent_run_iterations_bounded agentAlways "go" 2 rfl (by decide)
  exact ⟨⟨by decide, hdec⟩, h.1, h.2 hdec⟩

/-! ## C2 — success definition -/

/-- C2: a run that returns (run-level exceptions cannot arise in the
embedding, see `Agent.run`) has `success = (isFinished AND no step has an
error)`; and a run whose final state is unfinished — it exhausted
`maxIterations` — has `success = false`, carries no `Result.error`, and
used exactly `maxIterations` iterations. -/
theorem agent_run_success_characterisation (a : Agent) (input : String) :
    ((a.run input).result.success =
      ((a.run input).finalState.isFinished &&
        !((a.run input).result.steps.any fun st => st.error.isSome))) ∧
    (a.run input).result.error = none ∧
    ((a.run input).finalState.isFinished = false →
      (a.run input).result.success = false ∧
      (a.run input).result.iterations = a.config.maxIterations) := by
  refine ⟨rfl, rfl, fun hnf => ⟨?_, ?_⟩⟩
  · have h : (a.run input).result.success =
        ((a.run input).finalState.isFinished &&
          !((a.run input).result.steps.any fun st => st.error.isSome)) := rfl
    rw [h, hnf]
    simp
  · have h1 : (a.run input).result.iterations =
        (runLoop a a.config.maxIterations (startState a input)).1.iteration := rfl
    have h2 : (a.run input).finalState =
        (runLoop a a.config.maxIterations (startState a input)).1 := rfl
    rw [h2] at hnf
    rw [h1, runLoop_iteration_of_not_finished a _ _ hnf]
    have h0 : (startState a input).iteration = 0 := rfl
    rw [h0]
    omega

/-- Witness for C2 at the never-finishing agent with ceiling 2: the final
state is unfinished, success is false, no error object is present, and the
ceiling was exhausted. -/
theorem agent_run_success_characterisation_witness :
    (agentAlways.run "go").finalState.isFinished = false ∧
    ((agentAlways.run "go").result.success =
      ((agentAlways.run "go").finalState.isFinished &&
        !((agentAlways.run "go").result.steps.any fun st => st.error.isSome)) ∧
      (agentAlways.run "go").result.error = none ∧
      ((agentAlways.run "go").result.success = false ∧
        (agentAlways.run "go").result.iterations = agentAlways.config.maxIterations)) := by
  have hnf : (agentAlways.run "go").finalState.isFinished = false := by decide
  have h := agent_run_success_characterisation agentAlways "go"
  exact ⟨hnf, h.1, h.2.1, h.2.2 hnf⟩

/-! ## C3 — step-local capability errors do not abort the run -/

/-- The three step-local failure modes of a decided action: the named tool
is unregistered, the input fails the tool's schema validation, or the
tool's execute function throws. -/
def capabilityFails (a : Agent) (act : ToolAction) : Prop :=
  mapGet a.tools act.tool = none ∨
  (∃ t e, mapGet a.tools act.tool = some t ∧ t.inputSchema act.input = .error e) ∨
  (∃ t vin e, mapGet a.tools act.tool = some t ∧
    t.inputSchema act.input = .ok vin ∧ t.execute vin = .error e)

theorem executeStep_capability_failure (a : Agent) (st : AgentState)
    (d : Decision) (act : ToolAction) (hd : a.decide st = .ok d)
    (hact : d.action = some act) (hf : capabilityFails a act) :
    ∃ e, (executeStep a st).step.error = some e ∧
      (executeStep a st).step.action = some act ∧
      (executeStep a st).events =
        [AgentEvent.tool_call act.tool act.input,
         AgentEvent.error e st.iteration] := by
  unfold executeStep
  rw [hd]
  rcases hf with hnone | ⟨t, e, hl, hs⟩ | ⟨t, vin, e, hl, hs, hx⟩
  · refine ⟨"Tool not found: " ++ act.tool, ?_, ?_, ?_⟩ <;> simp [hact, hnone]
  · refine ⟨e, ?_, ?_, ?_⟩ <;> simp [hact, hl, hs]
  · refine ⟨e, ?_, ?_, ?_⟩ <;> simp [hact, hl, hs, hx]

/-- C3: when the decided action of an iteration names an unregistered
capability, or its input fails schema validation, or its execute throws,
the error is recorded on that step, an `error` event carrying the
iteration number is emitted, the step keeps its action so the loop is not
finished by it, and the loop proceeds to re-check its guard with the
remaining budget (and so may run further iterations). -/
theorem agent_step_error_isolated (a : Agent) (s : AgentState) (d : Decision)
    (act : ToolAction) (hd : a.decide (bumpIter s) = .ok d)
    (hact : d.action = some act) (hf : capabilityFails a act)
    (hrun : s.isFinished = false) :
    (executeStep a (bumpIter s)).step.error.isSome = true ∧
    (∃ m, AgentEvent.error m (s.iteration + 1) ∈ (executeStep a (bumpIter s)).events) ∧
    (executeStep a (bumpIter s)).step.action = some act ∧
    (loopBody a s).1.isFinished = false ∧
    (∀ fuel, runLoop a (fuel + 1) s =
      ((runLoop a fuel (loopBody a s).1).1,
       (loopBody a s).2 ++ (runLoop a fuel (loopBody a s).1).2)) := by
  obtain ⟨e, he, hacts, hevs⟩ :=
    executeStep_capability_failure a (bumpIter s) d act hd hact hf
  have hbiter : (bumpIter s).iteration = s.iteration + 1 := rfl
  refine ⟨by simp [he], ⟨e, ?_⟩, hacts, ?_, fun fuel => runLoop_succ_not_finished a fuel s hrun⟩
  · rw [hevs, hbiter]
    simp
  · rw [loopBody_isFinished_of_action a s act hacts, hrun]

/-- Witness for C3: a fresh state and the agent whose decision requests
the unregistered capability `ghost`; the failure mode is
capability-not-found. -/
theorem agent_step_error_isolated_witness :
    (capabilityFails agentAlways ghostAction ∧
      (startState agentAlways "go").isFinished = false) ∧
    ((executeStep agentAlways (bumpIter (startState agentAlways "go"))).step.error.isSome = true ∧
     (∃ m, AgentEvent.error m ((startState agentAlways "go").iteration + 1) ∈
        (executeStep agentAlways (bumpIter (startState agentAlways "go"))).events) ∧
     (executeStep agentAlways (bumpIter (startState agentAlways "go"))).step.action = some ghostAction ∧
     (loopBody agentAlways (startState agentAlways "go")).1.isFinished = false ∧
     (∀ fuel, runLoop agentAlways (fuel + 1) (startState agentAlways "go") =
       ((runLoop agentAlways fuel (loopBody agentAlways (startState agentAlways "go")).1).1,
        (loopBody agentAlways (startState agentAlways "go")).2 ++
          (runLoop agentAlways fuel (loopBody agentAlways (startState agentAlways "go")).1).2))) := by
  have hf : capabilityFails agentAlways ghostAction := Or.inl rfl
  exact ⟨⟨hf, rfl⟩,
    agent_step_error_isolated agentAlways (startState agentAlways "go")
      { thought := "keep going", action := some ghostAction } ghostAction rfl rfl hf rfl⟩

/-! ## C4 — where a decision-provider failure lands (corrected) -/

/-- Counterexample to C4 as stated: for the agent whose decision provider
throws before producing a thought, the returned `Result.error` is `none`
(the exception is NOT surfaced at the top of `run`), while the failure IS
recorded as a step-local error on the single recorded step; the run is
`success=false` and stops after one iteration because the failing step
carries no action. -/
theorem agent_decision_error_cex :
    (agentBoom.run "go").result.error = none ∧
    ((agentBoom.run "go").result.steps.any fun st => st.error.isSome) = true ∧
    (agentBoom.run "go").result.success = false ∧
    (agentBoom.run "go").result.iterations = 1 := by decide

/-- C4 amended: a decision-provider failure is caught inside
`executeStep`, recorded as that step's error with an `error` event
emitted, and never surfaced as `Result.error`; since the failing step has
no action the loop sets `isFinished` and terminates that run after the
failing iteration with `success=false`. -/
theorem agent_decision_error_step_local (a : Agent) (input : String) (e : String)
    (hd : a.decide (bumpIter (startState a input)) = .error e)
    (hk : 0 < a.config.maxIterations) :
    (a.run input).result.error = none ∧
    (a.run input).result.success = false ∧
    (a.run input).result.iterations = 1 ∧
    (a.run input).finalState.isFinished = true ∧
    (∃ st, (a.run input).result.steps = [st] ∧ st.error = some e ∧ st.action = none) ∧
    AgentEvent.error e 1 ∈ (a.run input).events := by
  obtain ⟨n, hn⟩ : ∃ n, a.config.maxIterations = n + 1 :=
    ⟨a.config.maxIterations - 1, by omega⟩
  have hs1 : (startState a input).isFinished = false := rfl
  have hstep : executeStep a (bumpIter (startState a input)) =
      { step := { iteration := 1, thought := "", action := none
                  observation := none, error := some e }
        state := bumpIter (startState a input)
        events := [.error e 1] } := by
    unfold executeStep
    rw [hd]
    rfl
  have hfin : (loopBody a (startState a input)).1.isFinished = true := by
    unfold loopBody
    rw [hstep]
    rfl
  have hsteps : (loopBody a (startState a input)).1.steps =
      [{ iteration := 1, thought := "", action := none
         observation := none, error := some e }] := by
    unfold loopBody
    rw [hstep]
    rfl
  have hiter : (loopBody a (startState a input)).1.iteration = 1 := by
    unfold loopBody
    rw [hstep]
    rfl
  have hevs : (loopBody a (startState a input)).2 =
      [AgentEvent.error e 1,
       AgentEvent.step { iteration := 1, thought := "", action := none
                         observation := none, error := some e }] := by
    unfold loopBody
    rw [hstep]
    rfl
  have hloop : runLoop a a.config.maxIterations (startState a input) =
      ((loopBody a (startState a input)).1, (loopBody a (startState a input)).2) := by
    rw [hn, runLoop_succ_not_finished a n (startState a input) hs1,
        runLoop_of_finished a n _ hfin]
    simp
  have hres : (a.run input).result =
      { output := outputOf (loopBody a (startState a input)).1
        steps := (loopBody a (startState a input)).1.steps
        iterations := (loopBody a (startState a input)).1.iteration
        success := (loopBody a (startState a input)).1.isFinished &&
          !((loopBody a (startState a input)).1.steps.any fun st => st.error.isSome)
        error := none } := by
    show (let p := runLoop a a.config.maxIterations (startState a input)
          ({ output := outputOf p.1, steps := p.1.steps, iterations := p.1.iteration
             success := p.1.isFinished && !(p.1.steps.any fun st => st.error.isSome)
             error := none } : AgentResult)) = _
    rw [hloop]
  have hfs : (a.run input).finalState = (loopBody a (startState a input)).1 := by
    show (runLoop a a.config.maxIterations (startState a input)).1 = _
    rw [hloop]
  refine ⟨by rw [hres], ?_, ?_, ?_, ?_, ?_⟩
  · rw [hres]
    simp [hfin, hsteps]
  · rw [hres]
    simp [hiter]
  · rw [hfs, hfin]
  · exact ⟨_, by rw [hres]; simpa using hsteps, rfl, rfl⟩
  · have hevents : (a.run input).events =
        [AgentEvent.start a.config input] ++
          (runLoop a a.config.maxIterations (startState a input)).2 ++
          [AgentEvent.finish (a.run input).result] := rfl
    rw [hevents, hloop, hevs]
    simp

/-- Witness for C4 (amended) at the agent whose decision provider always
throws. -/
theorem agent_decision_error_step_local_witness :
    (0 < agentBoom.config.maxIterations) ∧
    ((agentBoom.run "go").result.error = none ∧
      (agentBoom.run "go").result.success = false ∧
      (agentBoom.run "go").result.iterations = 1 ∧
      (agentBoom.run "go").finalState.isFinished = true ∧
      (∃ st, (agentBoom.run "go").result.steps = [st] ∧
        st.error = some "Decision provider failed" ∧ st.action = none) ∧
      AgentEvent.error "Decision provider failed" 1 ∈ (agentBoom.run "go").events) := by
  exact ⟨by decide,
    agent_decision_error_step_local agentBoom "go" "Decision provider failed" rfl (by decide)⟩

/-! ## C5 — event ordering for a single successful tool call -/

theorem loopBody_events (a : Agent) (s : AgentState) :
    (loopBody a s).2 = (executeStep a (bumpIter s)).events ++
      [AgentEvent.step (executeStep a (bumpIter s)).step] := rfl

theorem executeStep_success_events (a : Agent) (st : AgentState)
    (d : Decision) (act : ToolAction) (t : Tool) (vin res : String)
    (hd : a.decide st = .ok d) (hact : d.action = some act)
    (hl : mapGet a.tools act.tool = some t)
    (hs : t.inputSchema act.input = .ok vin) (hx : t.execute vin = .ok res) :
    (executeStep a st).events =
      [AgentEvent.tool_call act.tool act.input,
       AgentEvent.tool_result act.tool res] := by
  unfold executeStep
  rw [hd]
  simp [hact, hl, hs, hx]

theorem executeStep_success_action (a : Agent) (st : AgentState)
    (d : Decision) (act : ToolAction) (hd : a.decide st = .ok d)
    (hact : d.action = some act) :
    (executeStep a st).step.action = some act := by
  rw [executeStep_step_action a st d hd, hact]

/-- Appending listeners: each listener in the logging family appends its
own registration index to the log. -/
def logListener (i : Nat) : AgentEvent → List Nat → List Nat :=
  fun _ acc => acc ++ [i]

theorem emitEvent_log_order (ids : List Nat) (e : AgentEvent)
    (log : List Nat) :
    emitEvent (ids.map logListener) e log = log ++ ids := by
  induction ids generalizing log with
  | nil => simp [emitEvent]
  | cons i rest ih =>
    simp only [List.map_cons, emitEvent, List.foldl_cons]
    have := ih (log ++ [i])
    simp only [emitEvent] at this
    simp [logListener, this]

/-- C5: a run whose single iteration performs one successful capability
call emits exactly `[start, tool_call, tool_result, step, finish]`; and
`emitEvent` invokes listeners strictly sequentially in registration order
(witnessed by the logging family: the accumulated log lists the listener
indices in registration order, each listener's effect completed before the
next runs). -/
theorem agent_event_order_single_call (a : Agent) (input : String)
    (d : Decision) (act : ToolAction) (t : Tool) (vin res : String)
    (hmax : a.config.maxIterations = 1)
    (hd : a.decide (bumpIter (startState a input)) = .ok d)
    (hact : d.action = some act)
    (hl : mapGet a.tools act.tool = some t)
    (hs : t.inputSchema act.input = .ok vin)
    (hx : t.execute vin = .ok res) :
    (∃ st, (a.run input).events =
      [AgentEvent.start a.config input,
       AgentEvent.tool_call act.tool act.input,
       AgentEvent.tool_result act.tool res,
       AgentEvent.step st,
       AgentEvent.finish (a.run input).result]) ∧
    (∀ (ids : List Nat) (e : AgentEvent) (log : List Nat),
      emitEvent (ids.map logListener) e log = log ++ ids) := by
  refine ⟨⟨(executeStep a (bumpIter (startState a input))).step, ?_⟩, emitEvent_log_order⟩
  have h0 : (a.run input).events =
      [AgentEvent.start a.config input] ++
        (runLoop a a.config.maxIterations (startState a input)).2 ++
        [AgentEvent.finish (a.run input).result] := rfl
  have hs1 : (startState a input).isFinished = false := rfl
  rw [h0, hmax, runLoop_succ_not_finished a 0 (startState a input) hs1]
  have hz : (runLoop a 0 (loopBody a (startState a input)).1).2 = [] := rfl
  rw [hz, loopBody_events a (startState a input),
      executeStep_success_events a (bumpIter (startState a input)) d act t vin res hd hact hl hs hx]
  simp

/-- Witness for C5 at the echo agent: ceiling 1, one successful `echo`
call. -/
theorem agent_event_order_single_call_witness :
    ((∃ st, (agentEcho.run "go").events =
      [AgentEvent.start agentEcho.config "go",
       AgentEvent.tool_call "echo" "hi",
       AgentEvent.tool_result "echo" "echo:hi",
       AgentEvent.step st,
       AgentEvent.finish (agentEcho.run "go").result]) ∧
     (∀ (ids : List Nat) (e : AgentEvent) (log : List Nat),
       emitEvent (ids.map logListener) e log = log ++ ids)) := by
  exact agent_event_order_single_call agentEcho "go"
    { thought := "call echo", action := some { tool := "echo", input := "hi" } }
    { tool := "echo", input := "hi" } echoTool "hi" "echo:hi"
    rfl rfl rfl rfl rfl (by rfl)

/-! ## C6 — FIFO-on-write eviction in the ephemeral store -/

theorem mapGet_none_iff_not_mem {α : Type} (m : List (String × α))
    (k : String) : mapGet m k = none ↔ k ∉ mapKeys m := by
  induction m with
  | nil => simp [mapGet, mapKeys]
  | cons p rest ih =>
    by_cases h : p.1 = k
    · simp [mapGet, h, mapKeys]
    · simp [mapGet, h, mapKeys, ih, Ne.symm h]

theorem mapDelete_cons_head2 {α : Type} (p : String × α)
    (rest : List (String × α)) : mapDelete (p :: rest) p.1 = rest := by
  cases p
  simp [mapDelete]

theorem filterNe_length (l : List String) (k : String) (hmem : k ∈ l)
    (hnd : l.Nodup) : (l.filter fun x => x != k).length + 1 = l.length := by
  induction l with
  | nil => simp at hmem
  | cons x rest ih =>
    rcases List.nodup_cons.mp hnd with ⟨hx, hrest⟩
    rcases List.mem_cons.mp hmem with h | h
    · subst h
      have hall : rest.filter (fun y => y != k) = rest := by
        apply List.filter_eq_self.mpr
        intro y hy
        simp only [bne_iff_ne, ne_eq]
        intro he
        exact hx (he ▸ hy)
      simp [List.filter_cons, hall]
    · have hxk : x ≠ k := fun he => hx (he ▸ h)
      have hcons : (x :: rest).filter (fun y => y != k) =
          x :: rest.filter (fun y => y != k) := by
        simp [List.filter_cons, hxk]
      rw [hcons]
      have hih := ih h hrest
      simp only [List.length_cons]
      omega

theorem evictWhile_no_evict {α : Type} (maxSize : Nat)
    (store : List (String × α)) (order : List String)
    (h : order.length ≤ maxSize) :
    evictWhile maxSize store order = (store, order) := by
  cases order with
  | nil => rfl
  | cons k0 rest =>
    unfold evictWhile
    rw [if_neg]
    simp only [List.length_cons] at h
    omega

theorem saveAll_append {α : Type} (m : ShortTermMemory α)
    (l1 l2 : List (String × α)) :
    saveAll m (l1 ++ l2) = saveAll (saveAll m l1) l2 := by
  simp [saveAll, List.foldl_append]

theorem saveAll_fresh {α : Type} (maxSize : Nat) (ps : List (String × α))
    (hnd : (mapKeys ps).Nodup) (hlen : ps.length ≤ maxSize) :
    saveAll (ShortTermMemory.empty α maxSize) ps =
      { store := ps, maxSize := maxSize, insertionOrder := mapKeys ps } := by
  induction ps using List.reverseRecOn with
  | nil => rfl
  | append_singleton l p ih =>
    have hk : mapKeys (l ++ [p]) = mapKeys l ++ [p.1] := by
      simp [mapKeys]
    rw [hk] at hnd
    have hndl : (mapKeys l).Nodup := hnd.of_append_left
    have hfresh : p.1 ∉ mapKeys l := by
      have := List.disjoint_of_nodup_append hnd
      intro hmem
      exact this hmem (by simp)
    have hlenl : l.length ≤ maxSize := by
      simp at hlen
      omega
    rw [saveAll_append, ih hndl hlenl]
    show ShortTermMemory.save
      { store := l, maxSize := maxSize, insertionOrder := mapKeys l } p.1 p.2 = _
    unfold ShortTermMemory.save
    have hhas : mapHas l p.1 = false := by
      unfold mapHas
      rw [(mapGet_none_iff_not_mem l p.1).mpr hfresh]
      rfl
    simp only [hhas, Bool.false_eq_true, if_false]
    rw [mapSet_eq_append_of_not_mem l p.1 p.2 hfresh]
    rw [evictWhile_no_evict maxSize (l ++ [p]) (mapKeys l ++ [p.1])
      (by simp [mapKeys] at hlen ⊢; omega)]
    rw [hk]

theorem saveAll_overflow {α : Type} (N : Nat) (p0 : String × α)
    (rest : List (String × α)) (hN : 0 < N) (hlen : rest.length = N)
    (hnd : (mapKeys (p0 :: rest)).Nodup) :
    saveAll (ShortTermMemory.empty α N) (p0 :: rest) =
      { store := if p0.1 = "" then p0 :: rest else rest
        maxSize := N
        insertionOrder := mapKeys rest } := by
  rcases List.eq_nil_or_concat rest with hrest | ⟨qs, q, hrest⟩
  · rw [hrest] at hlen
    simp at hlen
    omega
  · rw [List.concat_eq_append] at hrest
    subst hrest
    have hkeys : mapKeys (p0 :: (qs ++ [q])) =
        (mapKeys (p0 :: qs)) ++ [q.1] := by
      simp [mapKeys]
    have hnd2 : ((mapKeys (p0 :: qs)) ++ [q.1]).Nodup := by rw [← hkeys]; exact hnd
    have hndl : (mapKeys (p0 :: qs)).Nodup := hnd2.of_append_left
    have hq : q.1 ∉ mapKeys (p0 :: qs) := by
      have := List.disjoint_of_nodup_append hnd2
      intro hmem
      exact this hmem (by simp)
    have hlenq : qs.length + 1 = N := by
      simp at hlen
      omega
    have hcons : (p0 :: (qs ++ [q])) = (p0 :: qs) ++ [q] := rfl
    rw [hcons, saveAll_append,
      saveAll_fresh N (p0 :: qs) hndl (by simp; omega)]
    show ShortTermMemory.save
      { store := p0 :: qs, maxSize := N, insertionOrder := mapKeys (p0 :: qs) }
      q.1 q.2 = _
    unfold ShortTermMemory.save
    have hhas : mapHas (p0 :: qs) q.1 = false := by
      unfold mapHas
      rw [(mapGet_none_iff_not_mem _ q.1).mpr hq]
      rfl
    simp only [hhas, Bool.false_eq_true, if_false]
    rw [mapSet_eq_append_of_not_mem _ q.1 q.2 hq]
    have hkeys2 : mapKeys (p0 :: qs) ++ [q.1] = p0.1 :: mapKeys (qs ++ [q]) := by
      simp [mapKeys]
    rw [hkeys2]
    have hlen2 : (mapKeys (qs ++ [q])).length = N := by
      simp [mapKeys]
      omega
    have hev : evictWhile N ((p0 :: qs) ++ [q]) (p0.1 :: mapKeys (qs ++ [q])) =
        ((if p0.1 = "" then (p0 :: qs) ++ [q] else qs ++ [q]),
         mapKeys (qs ++ [q])) := by
      unfold evictWhile
      rw [if_pos (by rw [hlen2]; omega)]
      by_cases he : p0.1 = ""
      · rw [if_pos he, evictWhile_no_evict N _ _ (by omega), if_pos he]
      · have hd : mapDelete ((p0 :: qs) ++ [q]) p0.1 = qs ++ [q] := by
          show mapDelete (p0 :: (qs ++ [q])) p0.1 = qs ++ [q]
          exact mapDelete_cons_head2 p0 (qs ++ [q])
        rw [if_neg he, hd, evictWhile_no_evict N _ _ (by omega), if_neg he]
    rw [hev]

/-- Lookup of the head key of a non-empty map. -/
theorem mapGet_cons_head {α : Type} (p : String × α)
    (rest : List (String × α)) : mapGet (p :: rest) p.1 = some p.2 := by
  cases p
  simp [mapGet]

/-- Counterexample to C6 as stated: saving the N+1 distinct keys
`"", "k2", "k3"` into a fresh store of capacity 2 does NOT make
`get("")` return undefined — the `if (oldestKey)` truthiness guard of
short-term.ts line 33 skips `store.delete("")`, so the value saved under
the empty string survives its own eviction, even though the key has left
the insertion order. -/
theorem shortTermMemory_empty_key_cex :
    (saveAll (ShortTermMemory.empty Nat 2)
      [("", 1), ("k2", 2), ("k3", 3)]).get "" = some 1 ∧
    "" ∉ (saveAll (ShortTermMemory.empty Nat 2)
      [("", 1), ("k2", 2), ("k3", 3)]).insertionOrder := by
  decide

/-- C6 amended: the ephemeral store's eviction discipline.  (1) Saving an
existing key refreshes its position in insertion order to most recent.
(2) Saving N+1 distinct keys into a fresh store of capacity N removes
exactly the first key from the insertion order and — provided that key is
not the empty string — deletes its value, so its lookup yields `none`
while every later key still yields its value.  (3) When the first key IS
the empty string, the `if (oldestKey)` truthiness guard skips the store
deletion: the key leaves the insertion order but `get("")` still returns
its value, and every later key keeps its value too.  (4) `get` never
changes the state, so interleaved reads never affect the eviction order —
eviction is FIFO by insertion/refresh time, not by access time. -/
theorem shortTermMemory_fifo_eviction (α : Type) :
    (∀ (m : ShortTermMemory α) (k : String) (v : α),
      mapHas m.store k = true → k ∈ m.insertionOrder →
      m.insertionOrder.Nodup → m.insertionOrder.length ≤ m.maxSize →
      (m.save k v).insertionOrder =
        m.insertionOrder.filter (fun x => x != k) ++ [k]) ∧
    (∀ (N : Nat) (p0 : String × α) (rest : List (String × α)),
      0 < N → rest.length = N → (mapKeys (p0 :: rest)).Nodup → p0.1 ≠ "" →
      (saveAll (ShortTermMemory.empty α N) (p0 :: rest)).get p0.1 = none ∧
      ∀ q ∈ rest,
        (saveAll (ShortTermMemory.empty α N) (p0 :: rest)).get q.1 = some q.2) ∧
    (∀ (N : Nat) (p0 : String × α) (rest : List (String × α)),
      0 < N → rest.length = N → (mapKeys (p0 :: rest)).Nodup → p0.1 = "" →
      (saveAll (ShortTermMemory.empty α N) (p0 :: rest)).get p0.1 = some p0.2 ∧
      p0.1 ∉ (saveAll (ShortTermMemory.empty α N) (p0 :: rest)).insertionOrder ∧
      ∀ q ∈ rest,
        (saveAll (ShortTermMemory.empty α N) (p0 :: rest)).get q.1 = some q.2) ∧
    (∀ (m : ShortTermMemory α) (ops : List (MemOp α)),
      applyMemOps m ops = applyMemOps m (ops.filter MemOp.isSave)) := by
  refine ⟨?_, ?_, ?_, ?_⟩
  · intro m k v hhas hmem hnd hcap
    unfold ShortTermMemory.save
    simp only [hhas, if_true]
    have hlenf : ((m.insertionOrder.filter fun x => x != k).length + 1 =
        m.insertionOrder.length) := filterNe_length m.insertionOrder k hmem hnd
    rw [evictWhile_no_evict m.maxSize _ _ (by simp [List.length_append]; omega)]
  · intro N p0 rest hN hlen hnd hne
    rw [saveAll_overflow N p0 rest hN hlen hnd]
    have hndr : (mapKeys rest).Nodup := by
      simp only [mapKeys, List.map_cons, List.nodup_cons] at hnd
      exact hnd.2
    have hp0 : p0.1 ∉ mapKeys rest := by
      simp only [mapKeys, List.map_cons, List.nodup_cons] at hnd
      exact hnd.1
    constructor
    · show mapGet (if p0.1 = "" then p0 :: rest else rest) p0.1 = none
      rw [if_neg hne]
      exact (mapGet_none_iff_not_mem rest p0.1).mpr hp0
    · intro q hq
      show mapGet (if p0.1 = "" then p0 :: rest else rest) q.1 = some q.2
      rw [if_neg hne]
      exact mapGet_of_mem_nodup rest q.1 q.2 hndr (by simpa using hq)
  · intro N p0 rest hN hlen hnd he
    rw [saveAll_overflow N p0 rest hN hlen hnd]
    have hndr : (mapKeys rest).Nodup := by
      simp only [mapKeys, List.map_cons, List.nodup_cons] at hnd
      exact hnd.2
    have hp0 : p0.1 ∉ mapKeys rest := by
      simp only [mapKeys, List.map_cons, List.nodup_cons] at hnd
      exact hnd.1
    refine ⟨?_, hp0, ?_⟩
    · show mapGet (if p0.1 = "" then p0 :: rest else rest) p0.1 = some p0.2
      rw [if_pos he]
      exact mapGet_cons_head p0 rest
    · intro q hq
      show mapGet (if p0.1 = "" then p0 :: rest else rest) q.1 = some q.2
      rw [if_pos he]
      have hq1 : q.1 ∈ mapKeys rest := List.mem_map_of_mem Prod.fst hq
      have hne2 : p0.1 ≠ q.1 := fun hc => hp0 (hc ▸ hq1)
      have hcons : mapGet (p0 :: rest) q.1 = mapGet rest q.1 := by
        cases p0
        simp [mapGet]
        intro hc
        exact absurd hc hne2
      rw [hcons]
      exact mapGet_of_mem_nodup rest q.1 q.2 hndr (by simpa using hq)
  · intro m ops
    induction ops generalizing m with
    | nil => rfl
    | cons o rest ih =>
      cases o with
      | save k v =>
        show applyMemOps (m.save k v) rest =
          applyMemOps m ((MemOp.save k v :: rest).filter MemOp.isSave)
        rw [List.filter_cons_of_pos (by rfl)]
        exact ih (m.save k v)
      | get k =>
        show applyMemOps m rest =
          applyMemOps m ((MemOp.get k :: rest).filter MemOp.isSave)
        rw [List.filter_cons_of_neg (by simp [MemOp.isSave])]
        exact ih m

/-- Witness for C6 with capacity 2: a non-empty first key k1 is truly
evicted while k2/k3 survive; the empty-string first key leaves the order
but keeps its value; an existing-key save refreshes order; and a read
between writes does not change the state. -/
theorem shortTermMemory_fifo_eviction_witness :
    ((saveAll (ShortTermMemory.empty Nat 2) [("k1", 1), ("k2", 2), ("k3", 3)]).get "k1" = none ∧
     (saveAll (ShortTermMemory.empty Nat 2) [("k1", 1), ("k2", 2), ("k3", 3)]).get "k2" = some 2 ∧
     (saveAll (ShortTermMemory.empty Nat 2) [("k1", 1), ("k2", 2), ("k3", 3)]).get "k3" = some 3) ∧
    ((saveAll (ShortTermMemory.empty Nat 2) [("", 1), ("k2", 2), ("k3", 3)]).get "" = some 1 ∧
     "" ∉ (saveAll (ShortTermMemory.empty Nat 2) [("", 1), ("k2", 2), ("k3", 3)]).insertionOrder ∧
     (saveAll (ShortTermMemory.empty Nat 2) [("", 1), ("k2", 2), ("k3", 3)]).get "k2" = some 2) ∧
    ((saveAll (ShortTermMemory.empty Nat 2) [("a", 1), ("b", 2)]).save "a" 9).insertionOrder = ["b", "a"] ∧
    applyMemOps (ShortTermMemory.empty Nat 2)
      [MemOp.save "a" 1, MemOp.get "a", MemOp.save "b" 2] =
      applyMemOps (ShortTermMemory.empty Nat 2)
        (([MemOp.save "a" 1, MemOp.get "a", MemOp.save "b" 2]).filter MemOp.isSave) := by
  have h2 := (shortTermMemory_fifo_eviction Nat).2.1 2 ("k1", 1) [("k2", 2), ("k3", 3)]
    (by decide) (by decide) (by decide) (by decide)
  have h3 := (shortTermMemory_fifo_eviction Nat).2.2.1 2 ("", 1) [("k2", 2), ("k3", 3)]
    (by decide) (by decide) (by decide) rfl
  have h1 := (shortTermMemory_fifo_eviction Nat).1
    (saveAll (ShortTermMemory.empty Nat 2) [("a", 1), ("b", 2)]) "a" 9
    (by decide) (by decide) (by decide) (by decide)
  have h4 := (shortTermMemory_fifo_eviction Nat).2.2.2 (ShortTermMemory.empty Nat 2)
    [MemOp.save "a" 1, MemOp.get "a", MemOp.save "b" 2]
  refine ⟨⟨h2.1, ?_, ?_⟩, ⟨h3.1, h3.2.1, ?_⟩, ?_, h4⟩
  · exact h2.2 ("k2", 2) (by decide)
  · exact h2.2 ("k3", 3) (by decide)
  · exact h3.2.2 ("k2", 2) (by decide)
  · rw [h1]
    decide

/-! ## C7 — durable-store round-trip fidelity -/

theorem mapKeys_mapSet_mem {α : Type} (m : List (String × α)) (k : String)
    (v : α) (h : k ∈ mapKeys m) : mapKeys (mapSet m k v) = mapKeys m := by
  induction m with
  | nil => simp [mapKeys] at h
  | cons p rest ih =>
    by_cases hk : p.1 = k
    · simp [mapSet, hk, mapKeys]
    · have hmem : k ∈ mapKeys rest := by
        rcases List.mem_cons.mp h with h1 | h1
        · exact absurd h1.symm hk
        · exact h1
      have hr := ih hmem
      simp only [mapKeys] at hr
      simp [mapSet, hk, mapKeys, hr]

theorem mapSet_keys_nodup {α : Type} (m : List (String × α)) (k : String)
    (v : α) (hnd : (mapKeys m).Nodup) : (mapKeys (mapSet m k v)).Nodup := by
  by_cases h : k ∈ mapKeys m
  · rw [mapKeys_mapSet_mem m k v h]
    exact hnd
  · rw [mapSet_eq_append_of_not_mem m k v h]
    have : mapKeys (m ++ [(k, v)]) = mapKeys m ++ [k] := by simp [mapKeys]
    rw [this]
    simp [List.nodup_append, hnd]
    intro hmem
    exact h hmem

theorem foldl_mapSet_keys_nodup {α : Type} (ps : List (String × α))
    (acc : List (String × α)) (hnd : (mapKeys acc).Nodup) :
    (mapKeys (ps.foldl (fun a p => mapSet a p.1 p.2) acc)).Nodup := by
  induction ps generalizing acc with
  | nil => exact hnd
  | cons p rest ih => exact ih _ (mapSet_keys_nodup acc p.1 p.2 hnd)

theorem entriesToMap_keys_nodup {α : Type} (ps : List (String × α)) :
    (mapKeys (entriesToMap ps)).Nodup :=
  foldl_mapSet_keys_nodup ps [] (by simp [mapKeys])

theorem foldl_mapSet_fresh {α : Type} (ps acc : List (String × α))
    (hfresh : ∀ k ∈ mapKeys ps, k ∉ mapKeys acc)
    (hnd : (mapKeys ps).Nodup) :
    ps.foldl (fun a p => mapSet a p.1 p.2) acc = acc ++ ps := by
  induction ps generalizing acc with
  | nil => simp
  | cons p rest ih =>
    simp only [List.foldl_cons]
    have hp : p.1 ∉ mapKeys acc := hfresh p.1 (by simp [mapKeys])
    rw [mapSet_eq_append_of_not_mem acc p.1 p.2 hp]
    simp only [mapKeys, List.map_cons, List.nodup_cons] at hnd
    have hfresh2 : ∀ k ∈ mapKeys rest, k ∉ mapKeys (acc ++ [(p.1, p.2)]) := by
      intro k hk
      have hka : k ∉ mapKeys acc :=
        hfresh k (show k ∈ p.1 :: mapKeys rest from List.mem_cons.mpr (Or.inr hk))
      have hkp : k ≠ p.1 := by
        intro he
        exact hnd.1 (he ▸ hk)
      have hks : mapKeys (acc ++ [(p.1, p.2)]) = mapKeys acc ++ [p.1] := by
        simp [mapKeys]
      rw [hks]
      simp only [List.mem_append, List.mem_singleton]
      rintro (hmem | hmem)
      · exact hka hmem
      · exact hkp hmem
    rw [ih (acc ++ [(p.1, p.2)]) hfresh2 hnd.2]
    simp

theorem entriesToMap_of_nodup {α : Type} (ps : List (String × α))
    (hnd : (mapKeys ps).Nodup) : entriesToMap ps = ps := by
  unfold entriesToMap
  rw [foldl_mapSet_fresh ps [] (by simp [mapKeys]) hnd]
  simp

theorem saveAllLT_store {α : Type} (m : LongTermMemory α)
    (ps : List (String × α)) :
    (saveAllLT m ps).store = ps.foldl (fun a p => mapSet a p.1 p.2) m.store := by
  induction ps generalizing m with
  | nil => rfl
  | cons p rest ih =>
    simp only [saveAllLT, List.foldl_cons] at ih ⊢
    exact ih (m.save p.1 p.2)

/-- C7: saving any set of entries into the durable store, persisting,
then loading into a fresh instance pointed at the same file reproduces
exactly the original key/value set: the fresh instance's `export` equals
the original instance's `export`. -/
theorem longTermMemory_roundtrip (α : Type) (ps : List (String × α)) :
    ((LongTermMemory.empty α).load
        ((saveAllLT (LongTermMemory.empty α) ps).persist).2).export =
      (saveAllLT (LongTermMemory.empty α) ps).export := by
  have hstore : (saveAllLT (LongTermMemory.empty α) ps).store = entriesToMap ps := by
    rw [saveAllLT_store]
    rfl
  have hnd : (mapKeys ((saveAllLT (LongTermMemory.empty α) ps).store)).Nodup := by
    rw [hstore]
    exact entriesToMap_keys_nodup ps
  have hid : entriesToMap ((saveAllLT (LongTermMemory.empty α) ps).store) =
      (saveAllLT (LongTermMemory.empty α) ps).store :=
    entriesToMap_of_nodup _ hnd
  show entriesToMap (entriesToMap (entriesToMap
    ((saveAllLT (LongTermMemory.empty α) ps).store))) =
    entriesToMap ((saveAllLT (LongTermMemory.empty α) ps).store)
  rw [hid, hid]
  exact hid

/-! ## C8 — dirty-flag lifecycle (corrected) -/

/-- Counterexample to C8 as stated: after one save, a `load` on an absent
file and a `load` on a malformed file both leave the dirty flag set (the
`catch` branch of `load` never clears `isDirty`), even though they do
empty the in-memory map. -/
theorem longTermMemory_load_keeps_dirty_cex :
    ((((LongTermMemory.empty Nat).save "k" 1).load none).isDirty = true ∧
      (((LongTermMemory.empty Nat).save "k" 1).load none).store = []) ∧
    ((((LongTermMemory.empty Nat).save "k" 1).load (some (.error ()))).isDirty = true ∧
      (((LongTermMemory.empty Nat).save "k" 1).load (some (.error ()))).store = []) := by
  decide

/-- C8 amended: a fresh durable store reports `isDirty=false`; after one
`save`, `isDirty=true`; after `persist()`, `isDirty=false` again; a `load`
that reads the file successfully clears the dirty flag; and a `load` on an
absent or malformed file leaves the in-memory map empty and returns
without throwing but leaves the dirty flag unchanged. -/
theorem longTermMemory_dirty_lifecycle (α : Type) :
    ((LongTermMemory.empty α).isDirty = false) ∧
    (∀ (m : LongTermMemory α) (k : String) (v : α), (m.save k v).isDirty = true) ∧
    (∀ (m : LongTermMemory α), m.persist.1.isDirty = false) ∧
    (∀ (m : LongTermMemory α) (fields : List (String × α)),
      (m.load (some (.ok fields))).isDirty = false) ∧
    (∀ (m : LongTermMemory α),
      (m.load none).store = [] ∧ (m.load none).isDirty = m.isDirty) ∧
    (∀ (m : LongTermMemory α),
      (m.load (some (.error ()))).store = [] ∧
      (m.load (some (.error ()))).isDirty = m.isDirty) := by
  exact ⟨rfl, fun _ _ _ => rfl, fun _ => rfl, fun _ _ => rfl,
    fun _ => ⟨rfl, rfl⟩, fun _ => ⟨rfl, rfl⟩⟩

/-! ## C9 — the derived system prompt ignores constructor-supplied tools -/

/-- A tool matching the repository's example calculator tool. -/
def calcTool : Tool :=
  { name := "calculator", description := "Performs basic arithmetic"
    inputSchema := fun s => .ok s
    execute := fun s => .ok s }

/-- Constructor options supplying one tool and no explicit system prompt:
the failing input for C9. -/
def calcOpts : AgentOptions :=
  { name := "MathBot", description := "does math", tools := [calcTool] }

set_option maxRecDepth 80000 in
/-- C9 (code bug): in `src/agent/core/agent.ts` the default system prompt
is computed at constructor line 50, before the constructor-supplied tools
are registered (lines 53-57), so the derived prompt always renders the
empty capability list — the supplied tool's name and description never
appear in it.  The Phase 0 constructor variant registers tools first
(commented "Register tools BEFORE generating default system prompt so
that tools are available in the prompt") and does include them, matching
the spec's description. -/
theorem agent_prompt_omits_constructor_tools :
    (mkAgent calcOpts).config.systemPrompt =
      defaultSystemPrompt calcOpts.name calcOpts.description [] ∧
    (mkAgent calcOpts).config.systemPrompt =
      (mkAgent { calcOpts with tools := [] }).config.systemPrompt ∧
    strOccurs "calculator" (mkAgent calcOpts).config.systemPrompt = false ∧
    strOccurs "calculator" (mkAgentPhase0 calcOpts).config.systemPrompt = true ∧
    strOccurs "Performs basic arithmetic"
      (mkAgentPhase0 calcOpts).config.systemPrompt = true := by
  exact ⟨rfl, rfl, by decide, by decide, by decide⟩

/-! ## C10 — duplicate registration: Agent overwrites, registry throws -/

theorem mapGet_mapSet_self {α : Type} (m : List (String × α)) (k : String)
    (v : α) : mapGet (mapSet m k v) k = some v := by
  induction m with
  | nil => simp [mapSet, mapGet]
  | cons p rest ih =>
    by_cases h : p.1 = k
    · simp [mapSet, h, mapGet]
    · simp [mapSet, h, mapGet, ih]

/-- C10: `Agent.registerTool` never fails on a duplicate name — the later
registration silently replaces the earlier tool, so the lookup used by
dispatch (`this.tools.get`) returns the most recently registered tool —
whereas `ToolRegistry.register` throws a duplicate error whenever the name
is already taken. -/
theorem registerTool_overwrites_registry_rejects (a : Agent) (t1 t2 : Tool)
    (hname : t1.name = t2.name) :
    mapGet ((a.registerTool t1).registerTool t2).tools t1.name = some t2 ∧
    (∀ (r : ToolRegistry) (t : Tool) (c : Option String),
      mapHas r.tools t.name = true →
      r.register t c = .error ("Tool already registered: " ++ t.name)) := by
  constructor
  · show mapGet (mapSet (mapSet a.tools t1.name t1) t2.name t2) t1.name = some t2
    rw [hname]
    exact mapGet_mapSet_self _ _ _
  · intro r t c hhas
    unfold ToolRegistry.register
    simp [hhas]

/-- A second tool carrying the same name as `echoTool`. -/
def echoTool2 : Tool :=
  { name := "echo", description := "replacement echo"
    inputSchema := fun s => .ok s
    execute := fun s => .ok s }

/-- A registry that already holds a tool named `echo`. -/
def regEcho : ToolRegistry :=
  { tools := [("echo", echoTool)], categories := [] }

/-- Witness for C10: registering two tools named `echo` on an agent leaves
the second one under that name, while the registry rejects the second
registration. -/
theorem registerTool_overwrites_registry_rejects_witness :
    mapGet ((agentAlways.registerTool echoTool).registerTool echoTool2).tools
      "echo" = some echoTool2 ∧
    regEcho.register echoTool2 none =
      .error ("Tool already registered: " ++ echoTool2.name) := by
  have h := registerTool_overwrites_registry_rejects agentAlways echoTool echoTool2 rfl
  exact ⟨h.1, h.2 regEcho echoTool2 none rfl⟩
